import Mathlib

/-!
Verification of the Prepzo voice-agent backend core: the turn interceptor
(`PrepzoAgent.llm_node`), the conversation store (`ConversationManager`), and
the tool contract (email / web-search / knowledge-base / resume tools).

The Python sources are shallowly embedded: Python strings become `String`,
Python lists become `List`, the streamed-chunk loop of `llm_node` becomes a
fold over the chunk list with an explicit `TurnState`, and fallible provider
calls become explicit outcome parameters (`Except`/`UpsertOutcome`), so that
both the success path and the exception path of each `try`/`except` block are
represented.
-/

/-! ## Python string primitives

`chPre pat l` decides whether `pat` is an initial segment of `l`;
`occursIn pat l` decides whether `pat` occurs contiguously in `l`.
Together they embed Python's `in` operator on strings. -/

def chPre : List Char → List Char → Bool
  | [], _ => true
  | _ :: _, [] => false
  | p :: ps, c :: cs => p == c && chPre ps cs

def occursIn (pat : List Char) : List Char → Bool
  | [] => chPre pat []
  | c :: cs => chPre pat (c :: cs) || occursIn pat cs

/-- Embeds Python's `pat in s` for strings. -/
def strContains (pat s : String) : Bool := occursIn pat.data s.data

/-- Drop matching characters from both ends of a character list; the core of
Python's `str.strip`. -/
def dropEdges (p : Char → Bool) (l : List Char) : List Char :=
  ((l.dropWhile p).reverse.dropWhile p).reverse

/-- Embeds Python's `s.strip()` (whitespace strip, used on the LLM buffer). -/
def pyStrip (s : String) : String := ⟨dropEdges Char.isWhitespace s.data⟩

/-- The characters of Python's `word.strip(".,!?")` in `add_message`. -/
def stripChars : List Char := ['.', ',', '!', '?']

/-- Embeds Python's `word.strip(".,!?")`. -/
def pyStripPunct (w : String) : String := ⟨dropEdges (fun c => stripChars.contains c) w.data⟩

/-- Worker for `pySplitWs`: walks the characters, accumulating the current
word reversed, emitting words at whitespace boundaries and dropping empty
words, exactly like Python's `str.split()` with no arguments. -/
def splitWsAux : List Char → List Char → List String
  | [], acc => if acc.isEmpty then [] else [⟨acc.reverse⟩]
  | c :: cs, acc =>
    if c.isWhitespace then
      if acc.isEmpty then splitWsAux cs []
      else ⟨acc.reverse⟩ :: splitWsAux cs []
    else splitWsAux cs (c :: acc)

/-- Embeds Python's `content.split()`. -/
def pySplitWs (s : String) : List String := splitWsAux s.data []

/-- Embeds Python's `"@" in w`. -/
def hasAtSign (w : String) : Bool := w.data.contains '@'

/-! ## Conversation store (`ConversationManager`, src/conversation_manager.py
and src/opti/data/conversation_manager.py) -/

/-- A conversation message; `add_message` only reads the `role` and `content`
keys of the Python dict, so those are the modelled fields. -/
structure Message where
  role : String
  content : String
deriving DecidableEq

/-- The mutable state of `ConversationManager.__init__`: session id (the room
id), optional participant id, redundant message counter, the in-memory message
list, and the set of emails already persisted (`self.emails`, modelled as a
duplicate-free list grown only by `store_user_email`). -/
structure ConversationManager where
  session_id : String
  participant_id : Option String
  message_count : Nat
  messages : List Message
  emails : List String
deriving DecidableEq

/-- `ConversationManager.__init__(room_id)`. -/
def mkConversationManager (roomId : String) : ConversationManager :=
  { session_id := roomId, participant_id := none, message_count := 0,
    messages := [], emails := [] }

/-- The email-extraction scan of `add_message`: if the content has an `@`,
split on whitespace and take every `@`-containing word stripped of `.,!?`
edges (the code schedules one `store_user_email` task per such word). -/
def extractEmails (content : String) : List String :=
  if hasAtSign content then
    (pySplitWs content).filterMap
      (fun w => if hasAtSign w then some (pyStripPunct w) else none)
  else []

/-- `ConversationManager.add_message`: appends the message, bumps the counter,
and — for user messages — schedules `store_user_email` for each detected email
token. The second component is the list of scheduled email-store arguments
(the fire-and-forget `asyncio.create_task(self.store_user_email(email))`
calls, in scheduling order). -/
def add_message (cm : ConversationManager) (m : Message) :
    ConversationManager × List String :=
  ({ cm with messages := cm.messages ++ [m],
             message_count := cm.message_count + 1 },
   if m.role = "user" then extractEmails m.content else [])

/-- `ConversationManager.get_messages`: synchronous snapshot of the in-memory
list. -/
def get_messages (cm : ConversationManager) : List Message := cm.messages

/-- Outcome of a durable-storage upsert call (`supabase...upsert(...).execute()`):
it either returns normally or raises. -/
inductive UpsertOutcome
  | ok
  | raises
deriving DecidableEq

/-- Result of one `store_user_email` call: the manager state afterwards,
whether the durable upsert was attempted, and whether an exception propagated
out of the method (the `raise` in its `except` block). -/
structure StoreEmailResult where
  cm : ConversationManager
  attempted : Bool
  raised : Bool
deriving DecidableEq

/-- `ConversationManager.store_user_email`: skips entirely when the email is
already in `self.emails`; otherwise attempts the upsert, and only on success
adds the email to the set (`self.emails.add(email)` runs after the upsert
line); on failure the exception is logged and re-raised with the set
unchanged. -/
def store_user_email (cm : ConversationManager) (email : String)
    (outcome : UpsertOutcome) : StoreEmailResult :=
  if cm.emails.contains email then
    { cm := cm, attempted := false, raised := false }
  else
    match outcome with
    | .ok => { cm := { cm with emails := cm.emails ++ [email] },
               attempted := true, raised := false }
    | .raises => { cm := cm, attempted := true, raised := true }

/-- Run the scheduled `store_user_email` tasks of one `add_message` call in
scheduling order, with every durable upsert succeeding; returns the final
manager state and the number of upserts performed. -/
def runStores (cm : ConversationManager) (emails : List String) :
    ConversationManager × Nat :=
  emails.foldl
    (fun acc e =>
      let r := store_user_email acc.1 e UpsertOutcome.ok
      (r.cm, acc.2 + (if r.attempted then 1 else 0)))
    (cm, 0)

/-- One user turn against the store: `add_message` with role `"user"` followed
by the scheduled email stores (all upserts succeeding). Second component is
the number of stored contact records produced by this turn. -/
def userTurn (cm : ConversationManager) (content : String) :
    ConversationManager × Nat :=
  let p := add_message cm { role := "user", content := content }
  runStores p.1 p.2

/-- Folding a list of messages through `add_message` (the store side effects
are irrelevant to ordering, so only the state is kept). -/
def addAll (cm : ConversationManager) (ms : List Message) : ConversationManager :=
  ms.foldl (fun c m => (add_message c m).1) cm

/-! ## Durable session rows (`initialize_session` / `store_session`) -/

/-- The fields of the `conversation_histories` row written by
`initialize_session` that the claims are about. -/
structure SessionRow where
  participant_id : String
  conversation : List Message
  message_count : Nat
deriving DecidableEq

/-- Number of rows keyed by `k` in the durable table. -/
def countKey (db : List (String × SessionRow)) (k : String) : Nat :=
  (db.filter (fun p => p.1 == k)).length

/-- Supabase `upsert` keyed by `session_id`: update the row in place when the
key exists, insert it otherwise. -/
def upsertRow (db : List (String × SessionRow)) (k : String) (r : SessionRow) :
    List (String × SessionRow) :=
  if countKey db k = 0 then db ++ [(k, r)]
  else db.map (fun p => if p.1 == k then (k, r) else p)

/-- Read back the durable row for key `k`. -/
def lookupRow (db : List (String × SessionRow)) (k : String) : Option SessionRow :=
  (db.find? (fun p => p.1 == k)).map (fun p => p.2)

/-- `ConversationManager.initialize_session`: records the participant id and
upserts a fresh row (`conversation: []`, `message_count: 0`) keyed by the
session id; a storage exception is logged and swallowed, leaving the table
unchanged. The in-memory `messages` list is not touched. -/
def initialize_session (cm : ConversationManager)
    (db : List (String × SessionRow)) (participant : String)
    (store : UpsertOutcome) : ConversationManager × List (String × SessionRow) :=
  let cm2 := { cm with participant_id := some participant }
  match store with
  | .ok => (cm2, upsertRow db cm2.session_id
      { participant_id := participant, conversation := [], message_count := 0 })
  | .raises => (cm2, db)

/-! ## Tool registry (src/opti/tools/*.py)

Each tool is embedded as a function of its provider-call outcomes. A total
`String`-returning path is wrapped in `Except.ok`; a path on which the Python
method lets an exception escape (no enclosing `except`, or an explicit
`raise`) is `Except.error`. The `_log_tool_result` helper threads the
`ConversationManager`. -/

/-- `Except.isOk` as used in the tool-contract theorems. -/
def exceptIsOk {ε α : Type} : Except ε α → Bool
  | Except.ok _ => true
  | Except.error _ => false

/-- `_log_tool_result` (identical helper in each tool class): appends a
`tool_result` message to the conversation store. Its internal `try`/`except`
swallows logging errors, so it is total. -/
def logToolResult (cm : ConversationManager) (s : String) : ConversationManager :=
  (add_message cm { role := "tool_result", content := s }).1

/-- `EmailTools.get_user_email`: cache hit returns the cached address; else the
Supabase lookup either yields an address, yields nothing (`"email not found"`),
or raises — in which case the `except` block returns `""`. Every path also logs
a `tool_result`. (The write into the `_session_emails` cache on a fresh lookup
is elided; no claim mentions the cache.) -/
def get_user_email (cm : ConversationManager) (cached : Option String)
    (dbRes : Except String (Option String)) :
    ConversationManager × Except String String :=
  match cached with
  | some email =>
    (logToolResult cm ("get_user_email result: " ++ email), Except.ok email)
  | none =>
    match dbRes with
    | Except.ok (some email) =>
      (logToolResult cm ("get_user_email result: " ++ email), Except.ok email)
    | Except.ok none =>
      (logToolResult cm "get_user_email result: email not found",
       Except.ok "email not found")
    | Except.error e =>
      (logToolResult cm ("get_user_email error: " ++ e), Except.ok "")

/-- `EmailTools.request_email`: builds the payload and publishes it on the
room data channel with no `try`/`except` — an exception from
`get_job_context()`/`publish_data` propagates to the caller unchanged. -/
def request_email (publish : Except String Unit) : Except String String :=
  match publish with
  | Except.ok _ => Except.ok "Email request sent."
  | Except.error e => Except.error e

/-- `ResumeTools.request_resume`: a failure to get the job context, or a
publish failure (which the inner `except` converts to a raised `ToolError`
that the outer `except Exception` then catches), ends in
`raise ToolError("Could not complete resume request due to an internal
error.")`; on success the tool returns its confirmation string (the
`StopIteration` of the inactive wait logic is caught and ignored). -/
def request_resume (ctx : Except String Unit) (publish : Except String Unit) :
    Except String String :=
  match ctx with
  | Except.error _ =>
    Except.error "Could not complete resume request due to an internal error."
  | Except.ok _ =>
    match publish with
    | Except.error _ =>
      Except.error "Could not complete resume request due to an internal error."
    | Except.ok _ => Except.ok "Resume request sent successfully."

/-- `WebSearchTools.web_search`: returns the Perplexity answer, or converts an
exception into a degraded string; both paths log a `tool_result`. -/
def web_search (cm : ConversationManager) (svc : Except String String) :
    ConversationManager × Except String String :=
  match svc with
  | Except.ok result => (logToolResult cm result, Except.ok result)
  | Except.error e =>
    let msg := "Unable to access current information due to an internal error: " ++ e
    (logToolResult cm msg, Except.ok msg)

/-- `KnowledgeTools.search_knowledge_base`: returns the Pinecone service
result, or converts an exception into the fixed apology string; both paths
log a `tool_result` before returning. -/
def search_knowledge_base (cm : ConversationManager) (svc : Except String String) :
    ConversationManager × Except String String :=
  match svc with
  | Except.ok results => (logToolResult cm results, Except.ok results)
  | Except.error _ =>
    let msg := "I encountered an error trying to search the knowledge base."
    (logToolResult cm msg, Except.ok msg)

/-- Key lookup in the analysis dict returned by `analyze_resume` (Python
`"k" in analysis` / `analysis["k"]`, with string values). -/
def dictGet (d : List (String × String)) (k : String) : Option String :=
  (d.find? (fun p => p.1 == k)).map (fun p => p.2)

/-- Stand-in for Python's `str(analysis)` used by `_log_tool_result(analysis)`. -/
def renderAnalysis (d : List (String × String)) : String :=
  String.intercalate ", " (d.map (fun p => p.1 ++ ": " ++ p.2))

/-- `ResumeTools.get_resume_information`: every branch — service exception,
`error` key, narrative format with or without an `analysis` key, raw fallback —
returns a string; the exception branch and the success branches log a
`tool_result`. -/
def get_resume_information (cm : ConversationManager)
    (svc : Except String (List (String × String))) :
    ConversationManager × Except String String :=
  match svc with
  | Except.error _ =>
    let msg := "An unexpected error occurred while attempting to analyze your resume."
    (logToolResult cm msg, Except.ok msg)
  | Except.ok analysis =>
    let cm2 := logToolResult cm (renderAnalysis analysis)
    match dictGet analysis "error" with
    | some err => (cm2, Except.ok err)
    | none =>
      if dictGet analysis "format" = some "narrative" then
        match dictGet analysis "analysis" with
        | some a => (cm2, Except.ok ("📄 **Resume Analysis**\n\n" ++ a))
        | none => (cm2, Except.ok "I couldn\x27t find any analysis content in the response.")
      else
        match dictGet analysis "raw_analysis" with
        | some raw => (cm2, Except.ok ("📄 **Resume Analysis**\n\n" ++ raw))
        | none =>
          (cm2, Except.ok "I was able to analyze your resume, but couldn\x27t format the results correctly. Please try again.")

/-! ## Turn interceptor (`PrepzoAgent.llm_node`, src/opti/agent/agent.py)

The per-chunk loop is a fold over the chunk list. `toolOk` is the outcome of
the manual `await self.resume_tools.request_resume()` call and `sayOk` that of
`await self.session.say(...)`; when either raises, the surrounding
`except Exception as tool_err` catches and logs, and the loop continues. -/

/-- One streamed LLM chunk: `chunk.delta.content` and (the stringification of)
`chunk.delta.tool_calls` when that list is non-empty. -/
structure Chunk where
  content : Option String
  toolCalls : Option String
deriving DecidableEq

/-- The sentinel phrase scanned for in the accumulated buffer. -/
def sentinelStr : String := "SYSTEM_TRIGGER_RESUME_REQUEST"

/-- The loop state of `llm_node`, plus counters observing its side effects:
chunks yielded downstream (in order), `request_resume` invocations,
`session.say` calls, messages logged to the conversation store, and the number
of chunks consumed from the stream. -/
structure TurnState where
  buffer : String
  suppress : Bool
  yielded : List Chunk
  toolInvocations : Nat
  sayCalls : Nat
  added : List Message
  processed : Nat
deriving DecidableEq

/-- The body of the trigger branch: the tool is always called once; only when
it returns (`toolOk`) is the `system_tool_trigger` message logged, and only
when `session.say` also returns (`sayOk`) does the spoken confirmation
happen — the shared `except` block swallows either failure. -/
def triggerStep (toolOk sayOk : Bool) (st : TurnState) : TurnState :=
  { st with
    toolInvocations := st.toolInvocations + 1,
    added := st.added ++
      (if toolOk then
        [{ role := "system_tool_trigger",
           content := "Manually triggered request_resume based on LLM phrase." }]
       else []),
    sayCalls := st.sayCalls + (if toolOk && sayOk then 1 else 0) }

/-- The `if chunk.delta and chunk.delta.content:` block: buffer the content
when not suppressing, and fire the trigger when the stripped buffer now
contains the sentinel. An absent or empty content is falsy in Python and
skips the block. -/
def contentStep (toolOk sayOk : Bool) (st : TurnState) (c : Chunk) : TurnState :=
  match c.content with
  | none => st
  | some s =>
    if s = "" then st
    else if st.suppress then st
    else
      let buf := st.buffer ++ s
      if strContains sentinelStr (pyStrip buf) then
        triggerStep toolOk sayOk { st with buffer := buf, suppress := true }
      else
        { st with buffer := buf }

/-- The `if ... chunk.delta.tool_calls:` block: log the stringified structured
tool-call delta to the conversation store (this happens whether or not
suppression is active). -/
def logStep (st : TurnState) (c : Chunk) : TurnState :=
  { st with added := st.added ++
      (match c.toolCalls with
       | some tc => [{ role := "llm_tool_call_generated", content := tc }]
       | none => []) }

/-- The `if not suppress_output_this_turn: yield chunk` tail of the loop body
(evaluated after the content/trigger and tool-call blocks of this iteration). -/
def yieldStep (st : TurnState) (c : Chunk) : TurnState :=
  { st with yielded := st.yielded ++ (if st.suppress then [] else [c]) }

/-- One full iteration of the `async for chunk in llm_stream` loop. -/
def stepChunk (toolOk sayOk : Bool) (st : TurnState) (c : Chunk) : TurnState :=
  let st1 := contentStep toolOk sayOk st c
  let st2 := logStep st1 c
  let st3 := yieldStep st2 c
  { st3 with processed := st3.processed + 1 }

/-- Loop-entry state of `llm_node` (`buffer = ""`,
`suppress_output_this_turn = False`). -/
def initTurnState : TurnState :=
  { buffer := "", suppress := false, yielded := [], toolInvocations := 0,
    sayCalls := 0, added := [], processed := 0 }

/-- Consume an entire model stream through the interceptor loop. -/
def runTurn (toolOk sayOk : Bool) (chunks : List Chunk) : TurnState :=
  chunks.foldl (stepChunk toolOk sayOk) initTurnState

/-- The content a chunk contributes to the buffer (`""` for a contentless
chunk). -/
def contentD (c : Chunk) : String := c.content.getD ""

/-- The accumulated buffer contents of a stream. -/
def accContent : List Chunk → String
  | [] => ""
  | c :: cs => contentD c ++ accContent cs

/-- The simulated model stream of the suppression scenario (claim C1). -/
def c1Chunks : List Chunk :=
  [{ content := some "I will ", toolCalls := none },
   { content := some "now ", toolCalls := none },
   { content := some "SYSTEM_TRIGGER_RESUME_REQUEST", toolCalls := none }]

/-! ## Helper lemmas: substring search is monotone under extension and strip -/

theorem chPre_append {pat l : List Char} (r : List Char) (h : chPre pat l = true) :
    chPre pat (l ++ r) = true := by
  induction pat generalizing l with
  | nil => simp [chPre]
  | cons p ps ih =>
    cases l with
    | nil => simp [chPre] at h
    | cons c cs =>
      simp only [List.cons_append]
      simp only [chPre, Bool.and_eq_true] at h ⊢
      exact ⟨h.1, ih h.2⟩

theorem occursIn_nil_pat (l : List Char) : occursIn [] l = true := by
  cases l with
  | nil => rfl
  | cons c cs => simp [occursIn, chPre]

theorem occursIn_cons {pat cs : List Char} (c : Char) (h : occursIn pat cs = true) :
    occursIn pat (c :: cs) = true := by
  simp [occursIn, h]

theorem occursIn_append_right {pat r : List Char} (l : List Char)
    (h : occursIn pat r = true) : occursIn pat (l ++ r) = true := by
  induction l with
  | nil => simpa using h
  | cons c cs ih =>
    simp only [List.cons_append]
    exact occursIn_cons c ih

theorem occursIn_append_left {pat l : List Char} (r : List Char)
    (h : occursIn pat l = true) : occursIn pat (l ++ r) = true := by
  induction l with
  | nil =>
    cases pat with
    | nil => exact occursIn_nil_pat r
    | cons p ps => simp [occursIn, chPre] at h
  | cons c cs ih =>
    simp only [List.cons_append]
    simp only [occursIn, Bool.or_eq_true] at h ⊢
    rcases h with h | h
    · exact Or.inl (chPre_append r h)
    · exact Or.inr (ih h)

theorem occursIn_dropWhile {pat : List Char} (p : Char → Bool) (l : List Char)
    (h : occursIn pat (l.dropWhile p) = true) : occursIn pat l = true := by
  have h2 := @occursIn_append_right pat (l.dropWhile p) (l.takeWhile p) h
  rwa [List.takeWhile_append_dropWhile] at h2

theorem occursIn_dropEdges {pat : List Char} (p : Char → Bool) (l : List Char)
    (h : occursIn pat (dropEdges p l) = true) : occursIn pat l = true := by
  apply occursIn_dropWhile p l
  have hdecomp : l.dropWhile p =
      ((l.dropWhile p).reverse.dropWhile p).reverse ++
      ((l.dropWhile p).reverse.takeWhile p).reverse := by
    conv_lhs => rw [← (l.dropWhile p).reverse_reverse,
      ← List.takeWhile_append_dropWhile p (l.dropWhile p).reverse]
    rw [List.reverse_append]
  rw [hdecomp]
  exact occursIn_append_left _ h

theorem string_data_append (a b : String) : (a ++ b).data = a.data ++ b.data := by
  cases a; cases b; rfl

theorem strContains_pyStrip {pat s : String}
    (h : strContains pat (pyStrip s) = true) : strContains pat s = true :=
  occursIn_dropEdges _ _ h

theorem strContains_append {pat a : String} (b : String)
    (h : strContains pat a = true) : strContains pat (a ++ b) = true := by
  unfold strContains at h ⊢
  rw [string_data_append]
  exact occursIn_append_left _ h

theorem string_append_assoc (a b c : String) : a ++ b ++ c = a ++ (b ++ c) := by
  cases a; cases b; cases c
  exact congrArg String.mk (List.append_assoc _ _ _)

theorem string_append_empty (a : String) : a ++ "" = a := by
  cases a
  exact congrArg String.mk (List.append_nil _)

theorem string_empty_append (a : String) : "" ++ a = a := by
  cases a
  rfl

/-! ## Helper lemmas: the interceptor loop -/

theorem contentStep_of_suppressed (tk sk : Bool) (st : TurnState) (c : Chunk)
    (h : st.suppress = true) : contentStep tk sk st c = st := by
  cases hc : c.content with
  | none => simp [contentStep, hc]
  | some s => simp [contentStep, hc, h]

theorem stepChunk_of_suppressed (tk sk : Bool) (st : TurnState) (c : Chunk)
    (h : st.suppress = true) :
    (stepChunk tk sk st c).suppress = true ∧
    (stepChunk tk sk st c).buffer = st.buffer ∧
    (stepChunk tk sk st c).yielded = st.yielded ∧
    (stepChunk tk sk st c).toolInvocations = st.toolInvocations := by
  unfold stepChunk yieldStep logStep
  rw [contentStep_of_suppressed tk sk st c h]
  simp [h]

theorem contentStep_pass (tk sk : Bool) (st : TurnState) (c : Chunk)
    (hsup : st.suppress = false)
    (hno : strContains sentinelStr (pyStrip (st.buffer ++ contentD c)) = false) :
    contentStep tk sk st c = { st with buffer := st.buffer ++ contentD c } := by
  cases hc : c.content with
  | none =>
    simp only [contentStep, hc, contentD, Option.getD]
    cases st
    simp [string_append_empty]
  | some s =>
    by_cases hs : s = ""
    · subst hs
      cases st
      simp [contentStep, hc, contentD, string_append_empty]
    · have hcd : contentD c = s := by simp [contentD, hc]
      have hno2 : strContains sentinelStr (pyStrip (st.buffer ++ s)) = false := by
        rwa [hcd] at hno
      simp only [contentStep, hc]
      rw [if_neg hs, if_neg (by simp [hsup]), if_neg (by simp [hno2]), hcd]

theorem stepChunk_pass (tk sk : Bool) (st : TurnState) (c : Chunk)
    (hsup : st.suppress = false)
    (hno : strContains sentinelStr (pyStrip (st.buffer ++ contentD c)) = false) :
    (stepChunk tk sk st c).suppress = false ∧
    (stepChunk tk sk st c).buffer = st.buffer ++ contentD c ∧
    (stepChunk tk sk st c).yielded = st.yielded ++ [c] ∧
    (stepChunk tk sk st c).toolInvocations = st.toolInvocations := by
  unfold stepChunk yieldStep logStep
  rw [contentStep_pass tk sk st c hsup hno]
  simp [hsup]

theorem foldl_invariant {α σ : Type} (f : σ → α → σ) (P : σ → Prop)
    (hstep : ∀ s a, P s → P (f s a)) :
    ∀ (l : List α) (s : σ), P s → P (l.foldl f s) := by
  intro l
  induction l with
  | nil => intro s hs; exact hs
  | cons a t ih => intro s hs; exact ih (f s a) (hstep s a hs)

theorem run_pass_aux (tk sk : Bool) (chunks : List Chunk) :
    ∀ st : TurnState, st.suppress = false →
      strContains sentinelStr (st.buffer ++ accContent chunks) = false →
      ((chunks.foldl (stepChunk tk sk) st).suppress = false ∧
       (chunks.foldl (stepChunk tk sk) st).yielded = st.yielded ++ chunks ∧
       (chunks.foldl (stepChunk tk sk) st).toolInvocations = st.toolInvocations ∧
       (chunks.foldl (stepChunk tk sk) st).buffer = st.buffer ++ accContent chunks) := by
  induction chunks with
  | nil =>
    intro st hsup _
    refine ⟨hsup, by simp, rfl, ?_⟩
    simp [accContent, string_append_empty]
  | cons c cs ih =>
    intro st hsup hno
    have hacc : st.buffer ++ accContent (c :: cs)
        = (st.buffer ++ contentD c) ++ accContent cs := by
      rw [accContent, ← string_append_assoc]
    have hnoc : strContains sentinelStr (pyStrip (st.buffer ++ contentD c)) = false := by
      cases hx : strContains sentinelStr (pyStrip (st.buffer ++ contentD c)) with
      | false => rfl
      | true =>
        exfalso
        have h1 := strContains_pyStrip hx
        have h2 := strContains_append (accContent (cs)) h1
        rw [← hacc] at h2
        simp [hno] at h2
    have hstep := stepChunk_pass tk sk st c hsup hnoc
    have ihres := ih (stepChunk tk sk st c) hstep.1
      (by rw [hstep.2.1, ← hacc]; exact hno)
    simp only [List.foldl_cons]
    refine ⟨ihres.1, ?_, ?_, ?_⟩
    · rw [ihres.2.1, hstep.2.2.1, List.append_assoc, List.singleton_append]
    · rw [ihres.2.2.1, hstep.2.2.2]
    · rw [ihres.2.2.2, hstep.2.1, hacc]

theorem contentStep_fields (tk sk : Bool) (st : TurnState) (c : Chunk) :
    ((contentStep tk sk st c).suppress = st.suppress ∧
     (contentStep tk sk st c).toolInvocations = st.toolInvocations) ∨
    (st.suppress = false ∧
     (contentStep tk sk st c).suppress = true ∧
     (contentStep tk sk st c).toolInvocations = st.toolInvocations + 1) := by
  cases hc : c.content with
  | none => exact Or.inl ⟨by simp [contentStep, hc], by simp [contentStep, hc]⟩
  | some s =>
    simp only [contentStep, triggerStep, hc]
    by_cases hs : s = ""
    · rw [if_pos hs]; exact Or.inl ⟨rfl, rfl⟩
    · rw [if_neg hs]
      by_cases hsup : st.suppress = true
      · rw [if_pos hsup]; exact Or.inl ⟨rfl, rfl⟩
      · have hf : st.suppress = false := by revert hsup; cases st.suppress <;> simp
        rw [if_neg hsup]
        by_cases ht : strContains sentinelStr (pyStrip (st.buffer ++ s)) = true
        · rw [if_pos ht]; exact Or.inr ⟨hf, rfl, rfl⟩
        · rw [if_neg ht]; exact Or.inl ⟨rfl, rfl⟩

theorem stepChunk_suppress_tool (tk sk : Bool) (st : TurnState) (c : Chunk) :
    ((stepChunk tk sk st c).suppress = st.suppress ∧
     (stepChunk tk sk st c).toolInvocations = st.toolInvocations) ∨
    (st.suppress = false ∧
     (stepChunk tk sk st c).suppress = true ∧
     (stepChunk tk sk st c).toolInvocations = st.toolInvocations + 1) := by
  rcases contentStep_fields tk sk st c with ⟨h1, h2⟩ | ⟨h0, h1, h2⟩
  · exact Or.inl ⟨h1, h2⟩
  · exact Or.inr ⟨h0, h1, h2⟩

theorem runTurn_tool_le_one (tk sk : Bool) (chunks : List Chunk) :
    (runTurn tk sk chunks).toolInvocations ≤ 1 := by
  have h := foldl_invariant (stepChunk tk sk)
    (fun st => (st.suppress = false → st.toolInvocations = 0) ∧ st.toolInvocations ≤ 1)
    (fun s a hs => by
      rcases stepChunk_suppress_tool tk sk s a with ⟨h1, h2⟩ | ⟨h0, h1, h2⟩
      · exact ⟨fun hf => by rw [h2]; exact hs.1 (h1 ▸ hf), by rw [h2]; exact hs.2⟩
      · refine ⟨fun hf => ?_, ?_⟩
        · rw [h1] at hf; cases hf
        · rw [h2, hs.1 h0])
    chunks initTurnState ⟨fun _ => rfl, Nat.zero_le 1⟩
  exact h.2

theorem contentStep_say_toolfail (sk : Bool) (st : TurnState) (c : Chunk) :
    (contentStep false sk st c).sayCalls = st.sayCalls := by
  cases hc : c.content with
  | none => simp [contentStep, hc]
  | some s =>
    simp only [contentStep, triggerStep, hc]
    by_cases hs : s = ""
    · rw [if_pos hs]
    · rw [if_neg hs]
      by_cases hsup : st.suppress = true
      · rw [if_pos hsup]
      · rw [if_neg hsup]
        by_cases ht : strContains sentinelStr (pyStrip (st.buffer ++ s)) = true
        · rw [if_pos ht]; simp
        · rw [if_neg ht]

theorem stepChunk_say_toolfail (sk : Bool) (st : TurnState) (c : Chunk) :
    (stepChunk false sk st c).sayCalls = st.sayCalls := by
  have h := contentStep_say_toolfail sk st c
  unfold stepChunk yieldStep logStep
  simpa using h

theorem contentStep_processed (tk sk : Bool) (st : TurnState) (c : Chunk) :
    (contentStep tk sk st c).processed = st.processed := by
  cases hc : c.content with
  | none => simp [contentStep, hc]
  | some s =>
    simp only [contentStep, triggerStep, hc]
    by_cases hs : s = ""
    · rw [if_pos hs]
    · rw [if_neg hs]
      by_cases hsup : st.suppress = true
      · rw [if_pos hsup]
      · rw [if_neg hsup]
        by_cases ht : strContains sentinelStr (pyStrip (st.buffer ++ s)) = true
        · rw [if_pos ht]
        · rw [if_neg ht]

theorem stepChunk_processed (tk sk : Bool) (st : TurnState) (c : Chunk) :
    (stepChunk tk sk st c).processed = st.processed + 1 := by
  have h := contentStep_processed tk sk st c
  unfold stepChunk yieldStep logStep
  simpa using h

theorem foldl_say_toolfail (sk : Bool) :
    ∀ (l : List Chunk) (st : TurnState),
      (l.foldl (stepChunk false sk) st).sayCalls = st.sayCalls := by
  intro l
  induction l with
  | nil => intro st; rfl
  | cons c t ih => intro st; rw [List.foldl_cons, ih, stepChunk_say_toolfail]

theorem foldl_processed (tk sk : Bool) :
    ∀ (l : List Chunk) (st : TurnState),
      (l.foldl (stepChunk tk sk) st).processed = st.processed + l.length := by
  intro l
  induction l with
  | nil => intro st; simp
  | cons c t ih =>
    intro st
    rw [List.foldl_cons, ih, stepChunk_processed, List.length_cons]
    omega

/-! ## Helper lemmas: the conversation store and durable rows -/

theorem addAll_spec (ms : List Message) :
    ∀ cm : ConversationManager,
      (addAll cm ms).messages = cm.messages ++ ms ∧
      (addAll cm ms).message_count = cm.message_count + ms.length := by
  induction ms with
  | nil => intro cm; simp [addAll]
  | cons m t ih =>
    intro cm
    have h := ih (add_message cm m).1
    simp only [addAll, List.foldl_cons] at h ⊢
    refine ⟨?_, ?_⟩
    · rw [h.1]; simp [add_message]
    · rw [h.2]; simp [add_message]; omega

theorem runStores_skip (cm : ConversationManager) (e : String)
    (h : cm.emails.contains e = true) : (runStores cm [e]).2 = 0 := by
  have h' : e ∈ cm.emails := by simpa using h
  simp [runStores, store_user_email, h']

theorem countKey_cons_pos {q : String × SessionRow} {qs : List (String × SessionRow)}
    {k : String} (h : (q.1 == k) = true) :
    countKey (q :: qs) k = countKey qs k + 1 := by
  simp [countKey, List.filter_cons, h]

theorem countKey_cons_neg {q : String × SessionRow} {qs : List (String × SessionRow)}
    {k : String} (h : (q.1 == k) = false) :
    countKey (q :: qs) k = countKey qs k := by
  simp [countKey, List.filter_cons, h]

theorem countKey_append (db1 db2 : List (String × SessionRow)) (k : String) :
    countKey (db1 ++ db2) k = countKey db1 k + countKey db2 k := by
  simp [countKey, List.filter_append]

theorem countKey_map_replace (db : List (String × SessionRow)) (k : String) (r : SessionRow) :
    countKey (db.map (fun p => if p.1 == k then (k, r) else p)) k = countKey db k := by
  induction db with
  | nil => rfl
  | cons q qs ih =>
    by_cases hq : (q.1 == k) = true
    · rw [List.map_cons, if_pos hq, countKey_cons_pos (by simp), countKey_cons_pos hq, ih]
    · have hq' : (q.1 == k) = false := by revert hq; cases (q.1 == k) <;> simp
      rw [List.map_cons, if_neg hq, countKey_cons_neg hq', countKey_cons_neg hq', ih]

theorem find?_key_append {db : List (String × SessionRow)} {k : String} (r : SessionRow)
    (h : countKey db k = 0) :
    (db ++ [(k, r)]).find? (fun p => p.1 == k) = some (k, r) := by
  induction db with
  | nil => simp [List.find?]
  | cons q qs ih =>
    by_cases hq : (q.1 == k) = true
    · rw [countKey_cons_pos hq] at h; exact absurd h (by omega)
    · have hq' : (q.1 == k) = false := by revert hq; cases (q.1 == k) <;> simp
      rw [countKey_cons_neg hq'] at h
      rw [List.cons_append, List.find?_cons_of_neg _ (by simp [hq']), ih h]

theorem find?_key_map {db : List (String × SessionRow)} {k : String} (r : SessionRow)
    (h : countKey db k ≠ 0) :
    (db.map (fun p => if p.1 == k then (k, r) else p)).find? (fun p => p.1 == k)
      = some (k, r) := by
  induction db with
  | nil => exact absurd rfl h
  | cons q qs ih =>
    by_cases hq : (q.1 == k) = true
    · rw [List.map_cons, if_pos hq, List.find?_cons_of_pos _ (by simp)]
    · have hq' : (q.1 == k) = false := by revert hq; cases (q.1 == k) <;> simp
      rw [List.map_cons, if_neg hq, List.find?_cons_of_neg _ (by simp [hq'])]
      exact ih (by rwa [countKey_cons_neg hq'] at h)

theorem lookup_upsert (db : List (String × SessionRow)) (k : String) (r : SessionRow) :
    lookupRow (upsertRow db k r) k = some r := by
  unfold upsertRow
  by_cases h0 : countKey db k = 0
  · rw [if_pos h0]; unfold lookupRow; rw [find?_key_append r h0]; rfl
  · rw [if_neg h0]; unfold lookupRow; rw [find?_key_map r h0]; rfl

theorem upsert_countKey (db : List (String × SessionRow)) (k : String) (r : SessionRow)
    (h : countKey db k ≤ 1) : countKey (upsertRow db k r) k = 1 := by
  unfold upsertRow
  by_cases h0 : countKey db k = 0
  · rw [if_pos h0, countKey_append, h0]
    simp [countKey, List.filter]
  · rw [if_neg h0, countKey_map_replace]
    omega

/-! ## Claim theorems -/

/-- Claim C1 — counterexample: on the stream `["I will ", "now ",
"SYSTEM_TRIGGER_RESUME_REQUEST"]` it is NOT the case that the downstream
yield is called zero times while the tool fires once: the loop yields each
chunk received before the sentinel completes (here two chunks), because
suppression only starts at the chunk whose arrival puts the sentinel into
the buffer. -/
theorem c1_counterexample :
    ¬ ((runTurn true true c1Chunks).yielded.length = 0 ∧
       (runTurn true true c1Chunks).toolInvocations = 1) := by decide

/-- Claim C1 (amended): on the stream `["I will ", "now ",
"SYSTEM_TRIGGER_RESUME_REQUEST"]`, the two chunks received before the
sentinel completes are forwarded downstream in order, the sentinel-carrying
chunk and everything after it are suppressed, the resume-request tool is
invoked exactly once, and the manual confirmation is spoken once. -/
theorem c1_suppression_from_sentinel :
    (runTurn true true c1Chunks).yielded =
      [{ content := some "I will ", toolCalls := none },
       { content := some "now ", toolCalls := none }] ∧
    (runTurn true true c1Chunks).toolInvocations = 1 ∧
    (runTurn true true c1Chunks).sayCalls = 1 := by decide

/-- Claim C2: over any model stream the STREAMING → TRIGGER_DETECTED
transition fires at most once (the tool is invoked at most once per turn),
and once suppression is active a loop iteration leaves the buffer untouched
(no buffering, hence no re-checking), yields nothing downstream, and never
invokes the tool again. -/
theorem c2_trigger_at_most_once (toolOk sayOk : Bool) (chunks : List Chunk) :
    (runTurn toolOk sayOk chunks).toolInvocations ≤ 1 ∧
    (∀ (st : TurnState) (c : Chunk), st.suppress = true →
      (stepChunk toolOk sayOk st c).suppress = true ∧
      (stepChunk toolOk sayOk st c).buffer = st.buffer ∧
      (stepChunk toolOk sayOk st c).yielded = st.yielded ∧
      (stepChunk toolOk sayOk st c).toolInvocations = st.toolInvocations) :=
  ⟨runTurn_tool_le_one toolOk sayOk chunks,
   fun st c h => stepChunk_of_suppressed toolOk sayOk st c h⟩

/-- Witness for C2 at a concrete stream and a concrete suppressed state. -/
theorem c2_trigger_at_most_once_witness :
    (runTurn true true c1Chunks).toolInvocations ≤ 1 ∧
    ((stepChunk true true
        { buffer := "x", suppress := true, yielded := [], toolInvocations := 1,
          sayCalls := 1, added := [], processed := 3 }
        { content := some "more text", toolCalls := none }).suppress = true ∧
     (stepChunk true true
        { buffer := "x", suppress := true, yielded := [], toolInvocations := 1,
          sayCalls := 1, added := [], processed := 3 }
        { content := some "more text", toolCalls := none }).buffer = "x" ∧
     (stepChunk true true
        { buffer := "x", suppress := true, yielded := [], toolInvocations := 1,
          sayCalls := 1, added := [], processed := 3 }
        { content := some "more text", toolCalls := none }).yielded = [] ∧
     (stepChunk true true
        { buffer := "x", suppress := true, yielded := [], toolInvocations := 1,
          sayCalls := 1, added := [], processed := 3 }
        { content := some "more text", toolCalls := none }).toolInvocations = 1) :=
  ⟨(c2_trigger_at_most_once true true c1Chunks).1,
   (c2_trigger_at_most_once true true c1Chunks).2
     { buffer := "x", suppress := true, yielded := [], toolInvocations := 1,
       sayCalls := 1, added := [], processed := 3 }
     { content := some "more text", toolCalls := none } rfl⟩

/-- Claim C3: if the accumulated buffer of the whole stream never contains
the sentinel phrase (by `strContains_append`/`strContains_pyStrip`
monotonicity, no prefix of the accumulation can then contain it either),
every chunk is forwarded downstream exactly once in order and the tool is
never invoked. -/
theorem c3_passthrough (toolOk sayOk : Bool) (chunks : List Chunk)
    (h : strContains sentinelStr (accContent chunks) = false) :
    (runTurn toolOk sayOk chunks).yielded = chunks ∧
    (runTurn toolOk sayOk chunks).toolInvocations = 0 := by
  have haux := run_pass_aux toolOk sayOk chunks initTurnState rfl
    (by rw [show initTurnState.buffer = "" from rfl, string_empty_append]; exact h)
  exact ⟨by simpa using haux.2.1, haux.2.2.1⟩

/-- Witness for C3 on a concrete sentinel-free stream. -/
theorem c3_passthrough_witness :
    strContains sentinelStr (accContent
      [{ content := some "Here are", toolCalls := none },
       { content := some " some interview tips.", toolCalls := none }]) = false ∧
    (runTurn true true
      [{ content := some "Here are", toolCalls := none },
       { content := some " some interview tips.", toolCalls := none }]).yielded =
      [{ content := some "Here are", toolCalls := none },
       { content := some " some interview tips.", toolCalls := none }] ∧
    (runTurn true true
      [{ content := some "Here are", toolCalls := none },
       { content := some " some interview tips.", toolCalls := none }]).toolInvocations = 0 :=
  ⟨by decide,
   (c3_passthrough true true
      [{ content := some "Here are", toolCalls := none },
       { content := some " some interview tips.", toolCalls := none }] (by decide)).1,
   (c3_passthrough true true
      [{ content := some "Here are", toolCalls := none },
       { content := some " some interview tips.", toolCalls := none }] (by decide)).2⟩

/-- Claim C4: for every sequence of `add_message` calls on a freshly
constructed manager, `get_messages` returns exactly the messages passed, in
call order, and after each call `message_count` equals the length of
`get_messages()`. -/
theorem c4_store_order_and_count (roomId : String) (ms : List Message) :
    get_messages (addAll (mkConversationManager roomId) ms) = ms ∧
    ∀ i : Nat,
      (addAll (mkConversationManager roomId) (ms.take i)).message_count =
        (get_messages (addAll (mkConversationManager roomId) (ms.take i))).length := by
  constructor
  · have h := (addAll_spec ms (mkConversationManager roomId)).1
    simpa [get_messages, mkConversationManager] using h
  · intro i
    have h := addAll_spec (ms.take i) (mkConversationManager roomId)
    simp only [get_messages]
    rw [h.1, h.2]
    simp [mkConversationManager]

theorem userTurn_count (cm : ConversationManager) (content : String) :
    (userTurn cm content).2 =
      (runStores (add_message cm { role := "user", content := content }).1
        (extractEmails content)).2 := rfl

/-- Claim C5: the user message `"contact me at a@b.com please"` yields the
extracted email `"a@b.com"` (edge punctuation from `.,!?` stripped), whose
store is attempted (one contact record written); any later user message whose
extraction yields that same email produces no further stored contact record
for the session. -/
theorem c5_email_extraction_dedup :
    extractEmails "contact me at a@b.com please" = ["a@b.com"] ∧
    (userTurn (mkConversationManager "room-1") "contact me at a@b.com please").2 = 1 ∧
    ∀ c2 : String, extractEmails c2 = ["a@b.com"] →
      (userTurn (userTurn (mkConversationManager "room-1")
          "contact me at a@b.com please").1 c2).2 = 0 := by
  refine ⟨by decide, by decide, ?_⟩
  intro c2 h
  have hem : (userTurn (mkConversationManager "room-1")
      "contact me at a@b.com please").1.emails = ["a@b.com"] := by decide
  rw [userTurn_count, h]
  apply runStores_skip
  show ((userTurn (mkConversationManager "room-1")
      "contact me at a@b.com please").1.emails).contains "a@b.com" = true
  rw [hem]
  decide

/-- Witness for C5: the same email sent a second time is not stored again. -/
theorem c5_email_extraction_dedup_witness :
    extractEmails "contact me at a@b.com please" = ["a@b.com"] ∧
    (userTurn (userTurn (mkConversationManager "room-1")
        "contact me at a@b.com please").1 "contact me at a@b.com please").2 = 0 :=
  ⟨by decide,
   c5_email_extraction_dedup.2.2 "contact me at a@b.com please" (by decide)⟩

/-- Claim C6: two successive `initialize_session` calls for the same session
id (with successful storage) leave exactly one durable row for that id, whose
conversation array is empty with `message_count = 0` — no messages are
duplicated, and the in-memory message list is untouched. -/
theorem c6_init_idempotent (cm : ConversationManager)
    (db : List (String × SessionRow)) (p1 p2 : String)
    (h : countKey db cm.session_id ≤ 1) :
    lookupRow (initialize_session (initialize_session cm db p1 UpsertOutcome.ok).1
        (initialize_session cm db p1 UpsertOutcome.ok).2 p2 UpsertOutcome.ok).2
        cm.session_id
      = some { participant_id := p2, conversation := [], message_count := 0 } ∧
    countKey (initialize_session (initialize_session cm db p1 UpsertOutcome.ok).1
        (initialize_session cm db p1 UpsertOutcome.ok).2 p2 UpsertOutcome.ok).2
        cm.session_id = 1 ∧
    (initialize_session (initialize_session cm db p1 UpsertOutcome.ok).1
        (initialize_session cm db p1 UpsertOutcome.ok).2 p2 UpsertOutcome.ok).1.messages
      = cm.messages := by
  have hsid : ∀ p : String,
      ({ cm with participant_id := some p } : ConversationManager).session_id
        = cm.session_id := fun _ => rfl
  simp only [initialize_session, hsid]
  refine ⟨lookup_upsert _ _ _, ?_, by trivial⟩
  exact upsert_countKey _ _ _ (le_of_eq (upsert_countKey db cm.session_id _ h))

/-- Witness for C6: double initialization of session `"room-1"` against an
empty table. -/
theorem c6_init_idempotent_witness :
    countKey [] (mkConversationManager "room-1").session_id ≤ 1 ∧
    (lookupRow (initialize_session
        (initialize_session (mkConversationManager "room-1") [] "alice" UpsertOutcome.ok).1
        (initialize_session (mkConversationManager "room-1") [] "alice" UpsertOutcome.ok).2
        "bob" UpsertOutcome.ok).2 (mkConversationManager "room-1").session_id
      = some { participant_id := "bob", conversation := [], message_count := 0 } ∧
    countKey (initialize_session
        (initialize_session (mkConversationManager "room-1") [] "alice" UpsertOutcome.ok).1
        (initialize_session (mkConversationManager "room-1") [] "alice" UpsertOutcome.ok).2
        "bob" UpsertOutcome.ok).2 (mkConversationManager "room-1").session_id = 1 ∧
    (initialize_session
        (initialize_session (mkConversationManager "room-1") [] "alice" UpsertOutcome.ok).1
        (initialize_session (mkConversationManager "room-1") [] "alice" UpsertOutcome.ok).2
        "bob" UpsertOutcome.ok).1.messages = (mkConversationManager "room-1").messages) :=
  ⟨by decide,
   c6_init_idempotent (mkConversationManager "room-1") [] "alice" "bob" (by decide)⟩

/-- Claim C7 — counterexample: not every registered tool turns provider
exceptions into a returned string. `request_email` has no exception handling
at all and propagates the publish exception unchanged, and `request_resume`
converts a publish failure into a raised `ToolError` instead of a returned
string. -/
theorem c7_counterexample :
    request_email (Except.error "publish_data raised a network error")
      = Except.error "publish_data raised a network error" ∧
    exceptIsOk (request_resume (Except.ok ())
      (Except.error "publish_data raised a network error")) = false :=
  ⟨rfl, rfl⟩

/-- Claim C7 (amended): `get_user_email`, `web_search`,
`search_knowledge_base` and `get_resume_information` catch every provider
exception and return a string, but `request_email` propagates any exception
raised by the data-channel publish unchanged, and `request_resume` raises
`ToolError` instead of returning a string whenever getting the job context or
publishing fails (succeeding otherwise). -/
theorem c7_tool_exception_contract (cm : ConversationManager)
    (cached : Option String) (dbRes : Except String (Option String))
    (svc1 svc2 : Except String String)
    (analysis : Except String (List (String × String)))
    (e : String) (ctx : Except String Unit) :
    exceptIsOk (get_user_email cm cached dbRes).2 = true ∧
    exceptIsOk (web_search cm svc1).2 = true ∧
    exceptIsOk (search_knowledge_base cm svc2).2 = true ∧
    exceptIsOk (get_resume_information cm analysis).2 = true ∧
    request_email (Except.error e) = Except.error e ∧
    request_email (Except.ok ()) = Except.ok "Email request sent." ∧
    exceptIsOk (request_resume ctx (Except.error e)) = false ∧
    request_resume (Except.ok ()) (Except.ok ())
      = Except.ok "Resume request sent successfully." := by
  refine ⟨?_, ?_, ?_, ?_, rfl, rfl, ?_, rfl⟩
  · cases cached with
    | some em => rfl
    | none =>
      cases dbRes with
      | ok o => cases o <;> rfl
      | error er => rfl
  · cases svc1 <;> rfl
  · cases svc2 <;> rfl
  · cases analysis with
    | error er => rfl
    | ok d =>
      simp only [get_resume_information]
      split
      · rfl
      · split
        · split <;> rfl
        · split <;> rfl
  · cases ctx <;> rfl

/-- Claim C8: when the underlying vector-index search raises, the
knowledge-base tool returns the fixed apology string (no exception escapes),
and that same string has been appended to the conversation store as a
`tool_result` message when the tool returns. -/
theorem c8_kb_error_containment (cm : ConversationManager) (e : String) :
    (search_knowledge_base cm (Except.error e)).2
      = Except.ok "I encountered an error trying to search the knowledge base." ∧
    (search_knowledge_base cm (Except.error e)).1.messages
      = cm.messages ++
        [Message.mk "tool_result"
          "I encountered an error trying to search the knowledge base."] :=
  ⟨rfl, rfl⟩

/-- Claim C9: in a turn where the trigger was detected but the manually
invoked `request_resume` raises, the exception is caught: `session.say` is
never executed (no spoken output for the turn) and the loop still consumes
every chunk of the stream (no re-raise). -/
theorem c9_tool_failure_silent_turn (sayOk : Bool) (chunks : List Chunk)
    (h : (runTurn false sayOk chunks).suppress = true) :
    (runTurn false sayOk chunks).sayCalls = 0 ∧
    (runTurn false sayOk chunks).processed = chunks.length := by
  refine ⟨foldl_say_toolfail sayOk chunks initTurnState, ?_⟩
  have hp := foldl_processed false sayOk chunks initTurnState
  simpa [runTurn, initTurnState] using hp

/-- Witness for C9 on a stream that triggers with a failing tool. -/
theorem c9_tool_failure_silent_turn_witness :
    (runTurn false true
      [({ content := some "SYSTEM_TRIGGER_RESUME_REQUEST", toolCalls := none } : Chunk)]).suppress
      = true ∧
    ((runTurn false true
      [({ content := some "SYSTEM_TRIGGER_RESUME_REQUEST", toolCalls := none } : Chunk)]).sayCalls
      = 0 ∧
    (runTurn false true
      [({ content := some "SYSTEM_TRIGGER_RESUME_REQUEST", toolCalls := none } : Chunk)]).processed
      = [({ content := some "SYSTEM_TRIGGER_RESUME_REQUEST", toolCalls := none } : Chunk)].length) :=
  ⟨by decide,
   c9_tool_failure_silent_turn true
     [({ content := some "SYSTEM_TRIGGER_RESUME_REQUEST", toolCalls := none } : Chunk)]
     (by decide)⟩

/-- Claim C10: `store_user_email` adds the email to the in-memory
deduplication set only after the durable upsert succeeds. If the upsert
raises, the exception propagates out of the method and the set is unchanged,
so a later detection of the same email attempts the durable write again (and
on success records the email). -/
theorem c10_email_store_atomicity (cm : ConversationManager) (email : String)
    (h : cm.emails.contains email = false) :
    (store_user_email cm email UpsertOutcome.raises).raised = true ∧
    (store_user_email cm email UpsertOutcome.raises).cm.emails = cm.emails ∧
    (store_user_email (store_user_email cm email UpsertOutcome.raises).cm email
        UpsertOutcome.ok).attempted = true ∧
    (store_user_email (store_user_email cm email UpsertOutcome.raises).cm email
        UpsertOutcome.ok).cm.emails = cm.emails ++ [email] := by
  have h' : ¬ (email ∈ cm.emails) := by simpa using h
  simp [store_user_email, h']

/-- Witness for C10 with a fresh manager and a failing first upsert. -/
theorem c10_email_store_atomicity_witness :
    (mkConversationManager "room-1").emails.contains "a@b.com" = false ∧
    ((store_user_email (mkConversationManager "room-1") "a@b.com"
        UpsertOutcome.raises).raised = true ∧
    (store_user_email (mkConversationManager "room-1") "a@b.com"
        UpsertOutcome.raises).cm.emails = (mkConversationManager "room-1").emails ∧
    (store_user_email (store_user_email (mkConversationManager "room-1") "a@b.com"
        UpsertOutcome.raises).cm "a@b.com" UpsertOutcome.ok).attempted = true ∧
    (store_user_email (store_user_email (mkConversationManager "room-1") "a@b.com"
        UpsertOutcome.raises).cm "a@b.com" UpsertOutcome.ok).cm.emails
      = (mkConversationManager "room-1").emails ++ ["a@b.com"]) :=
  ⟨by decide,
   c10_email_store_atomicity (mkConversationManager "room-1") "a@b.com" (by decide)⟩
